import Mathlib

/-!
Verification development for the `cfdata` address scanning/testing tool
(`src/cfdata.py`).  Python strings are modelled as `List Char`; Python
integers as `ℕ`/`ℤ`; Python floats arising from the loss-rate arithmetic as
`ℚ` (for the values this program produces — exact multiples of 1/10 — the
float computations coincide with exact rational arithmetic); fallible
operations as `Option`.  Network effects are made explicit: each socket
interaction is an injected argument (measured latencies, response bytes),
so the per-candidate decision logic of `scan_ip` and `test_ip` becomes a
pure function of those inputs.
-/

namespace Cfdata

/-- Python's `str.split(sep)` for a one-character separator: consecutive
separators yield empty fields, and the empty string splits to `[""]`. -/
def splitOnChar (sep : Char) : List Char → List (List Char)
  | [] => [[]]
  | c :: cs =>
    let rest := splitOnChar sep cs
    if c = sep then [] :: rest
    else
      match rest with
      | [] => [[c]]
      | g :: gs => (c :: g) :: gs

/-- Python's `sep.join(parts)` for a one-character separator. -/
def joinSep (sep : Char) : List (List Char) → List Char
  | [] => []
  | [g] => g
  | g :: gs => g ++ sep :: joinSep sep gs

/-- Python's `s[:-n]` (drop the last `n` characters; empty if `len(s) ≤ n`). -/
def dropRight (n : ℕ) (l : List Char) : List Char := l.take (l.length - n)

/-- Python's `s.endswith(suffix)`. -/
def endsWith (suffix l : List Char) : Bool := List.isSuffixOf suffix l

/-- Python's `str(n)` for a nonnegative integer (decimal, no padding). -/
def natToStr (n : ℕ) : List Char := Nat.toDigits 10 n

/-- Python's `f"{n:x}"` for a nonnegative integer: lowercase hexadecimal,
no leading-zero padding. -/
def natToHex (n : ℕ) : List Char := Nat.toDigits 16 n

/-- Python's `needle in hay` substring test. -/
def containsSub (needle : List Char) : List Char → Bool
  | [] => needle.isEmpty
  | c :: cs => needle.isPrefixOf (c :: cs) || containsSub needle cs

/-! ## AddressSampler (`get_random_ipv4s`, `get_random_ipv6s`)

`random.randint` is modelled by an injected random source `rng` indexed by
the number of calls made so far; the extra `ℕ` argument is that call
counter.  `rng k : Fin 256` (resp. `Fin 65536`) captures `randint(0, 255)`
(resp. `randint(0, 65535)`) returning a value in the inclusive range. -/

/-- `get_random_ipv4s` from `src/cfdata.py`: for each CIDR string ending in
`/24` whose base has exactly four dot-separated octets, replace the fourth
octet with a random byte; skip every other entry. -/
def get_random_ipv4s (rng : ℕ → Fin 256) : ℕ → List (List Char) → List (List Char)
  | _, [] => []
  | k, subnet :: rest =>
    if endsWith ("/24".toList) subnet then
      let octets := splitOnChar '.' (dropRight 3 subnet)
      if octets.length = 4 then
        joinSep '.' (octets.set 3 (natToStr (rng k).val)) :: get_random_ipv4s rng (k + 1) rest
      else get_random_ipv4s rng k rest
    else get_random_ipv4s rng k rest

/-- The condition under which `get_random_ipv4s` emits a candidate for a
block: ends in `/24` and the base splits into exactly four octets. -/
def eligibleV4 (subnet : List Char) : Bool :=
  endsWith ("/24".toList) subnet && decide ((splitOnChar '.' (dropRight 3 subnet)).length = 4)

/-- `get_random_ipv6s` from `src/cfdata.py`: for each CIDR string ending in
`/48` whose base has at least three colon-separated sections, keep the
first three sections and append five random 16-bit groups in lowercase
hex; skip every other entry.  Each eligible block consumes five successive
random values. -/
def get_random_ipv6s (rng : ℕ → Fin 65536) : ℕ → List (List Char) → List (List Char)
  | _, [] => []
  | k, subnet :: rest =>
    if endsWith ("/48".toList) subnet then
      let sections := splitOnChar ':' (dropRight 3 subnet)
      if sections.length < 3 then get_random_ipv6s rng k rest
      else
        joinSep ':' (sections.take 3 ++ (List.range 5).map fun i => natToHex (rng (k + i)).val)
          :: get_random_ipv6s rng (k + 5) rest
    else get_random_ipv6s rng k rest

/-- The condition under which `get_random_ipv6s` emits a candidate for a
block: ends in `/48` and the base splits into at least three sections. -/
def eligibleV6 (subnet : List Char) : Bool :=
  endsWith ("/48".toList) subnet && decide (3 ≤ (splitOnChar ':' (dropRight 3 subnet)).length)

/-! ## ProbeEngine (`scan_ip` inside `run_ip_scan`)

A worker's per-candidate network interaction is abstracted into a
`NetBehavior`: the connect can fail (timeout/refusal/unreachable), the
send/recv phase can fail (reset, timeout), or a full exchange yields a
measured connect latency and a decoded response text
(`decode('utf-8', errors='ignore')` never raises, so decoding is part of
`response`).  Any exception inside the `try` block makes `scan_ip` return
`None`; the pure decision logic after the exchange is embedded below. -/

/-- `Location` record from `src/cfdata.py` (one entry of `locations.json`). -/
structure Location where
  iata : List Char
  lat : ℚ
  lon : ℚ
  cca2 : List Char
  region : List Char
  city : List Char
deriving DecidableEq

/-- `ScanResult` from `src/cfdata.py`. -/
structure ScanResult where
  ip : List Char
  data_center : List Char
  region : List Char
  city : List Char
  latency_ms : ℕ
deriving DecidableEq

/-- One candidate's observable network behaviour during `scan_ip`. -/
inductive NetBehavior where
  | connectFail
  | exchangeFail (latency_ms : ℕ)
  | response (latency_ms : ℕ) (text : List Char)

/-- `re.search(r'colo=([A-Z]+)', text)`: the leftmost position where
`colo=` is followed by at least one uppercase letter; the captured group
is the maximal run of uppercase letters after the `=`. -/
def findColo : List Char → Option (List Char)
  | [] => none
  | c :: cs =>
    if ("colo=".toList).isPrefixOf (c :: cs) then
      let run := ((c :: cs).drop 5).takeWhile fun ch => ch.isUpper
      if run.isEmpty then findColo cs else some run
    else findColo cs

/-- The identifying User-Agent echo `scan_ip` looks for in the response. -/
def uagEcho : List Char := "uag=Mozilla/5.0".toList

/-- `scan_ip` from `src/cfdata.py`, as a function of the candidate's
network behaviour: failures and responses lacking the `uag=Mozilla/5.0`
echo or a `colo=CODE` token yield `none`; otherwise the data-center code
is looked up in `location_map` (`dict.get`), emitting a `ScanResult` with
the location's region/city if found and with empty strings if not. -/
def scan_ip (location_map : List Char → Option Location) (ip : List Char) :
    NetBehavior → Option ScanResult
  | .connectFail => none
  | .exchangeFail _ => none
  | .response latency_ms text =>
    if containsSub uagEcho text then
      match findColo text with
      | some code =>
        match location_map code with
        | some loc => some ⟨ip, code, loc.region, loc.city, latency_ms⟩
        | none => some ⟨ip, code, [], [], latency_ms⟩
      | none => none
    else none

/-! ## LatencyTester (`test_ip` inside `run_detailed_test`)

Each of the 10 trials either raises (modelled `none`: connect timeout or
refusal) or measures an integer latency in milliseconds (`some l`). -/

/-- `TestResult` from `src/cfdata.py`. -/
structure TestResult where
  ip : List Char
  min_latency : ℕ
  max_latency : ℕ
  avg_latency : ℕ
  loss_rate : ℚ
deriving DecidableEq

/-- The running statistics of `test_ip`'s trial loop.  `min_latency = none`
models the initial `float('inf')` (no successful trial yet). -/
structure TrialState where
  success_count : ℕ
  total_latency : ℕ
  min_latency : Option ℕ
  max_latency : ℕ
deriving DecidableEq

/-- One iteration of `test_ip`'s loop: an exception (`none`) is skipped
(`continue`); a measured latency strictly above `delay` is skipped; any
other measured latency updates count, sum, min and max. -/
def trialStep (delay : ℕ) (st : TrialState) : Option ℕ → TrialState
  | none => st
  | some latency_ms =>
    if delay < latency_ms then st
    else
      { success_count := st.success_count + 1
        total_latency := st.total_latency + latency_ms
        min_latency := some (match st.min_latency with
          | none => latency_ms
          | some m => min m latency_ms)
        max_latency := max st.max_latency latency_ms }

/-- The state before the first trial: counts and sums 0, min `inf`. -/
def initState : TrialState := ⟨0, 0, none, 0⟩

/-- `test_ip` from `src/cfdata.py`: run the trials, and if at least one
succeeded emit a `TestResult` with `avg = total // success_count` and
`loss_rate = (10 - success_count) / 10.0`; otherwise return `None` (the
address is dropped). -/
def test_ip (delay : ℕ) (ip : List Char) (trials : List (Option ℕ)) : Option TestResult :=
  let st := trials.foldl (trialStep delay) initState
  if 0 < st.success_count then
    some { ip := ip
           min_latency := st.min_latency.getD 0
           max_latency := st.max_latency
           avg_latency := st.total_latency / st.success_count
           loss_rate := ((10 : ℚ) - st.success_count) / 10 }
  else none

/-- The latencies of the successful trials, in trial order: trials that
did not raise and whose measured latency is at most `delay`. -/
def successLatencies (delay : ℕ) (trials : List (Option ℕ)) : List ℕ :=
  (trials.filterMap id).filter fun l => decide (l ≤ delay)

/-- The sort key order of `run_detailed_test`'s
`results.sort(key=lambda x: (x.loss_rate, x.avg_latency))`: lexicographic
on the pair (loss rate, average latency). -/
def resKeyLE (a b : TestResult) : Prop :=
  a.loss_rate < b.loss_rate ∨ (a.loss_rate = b.loss_rate ∧ a.avg_latency ≤ b.avg_latency)

instance : DecidableRel resKeyLE := fun a b => by
  unfold resKeyLE
  exact inferInstance

instance : IsTotal TestResult resKeyLE where
  total a b := by
    unfold resKeyLE
    rcases lt_trichotomy a.loss_rate b.loss_rate with h | h | h
    · exact Or.inl (Or.inl h)
    · rcases Nat.le_total a.avg_latency b.avg_latency with h2 | h2
      · exact Or.inl (Or.inr ⟨h, h2⟩)
      · exact Or.inr (Or.inr ⟨h.symm, h2⟩)
    · exact Or.inr (Or.inl h)

instance : IsTrans TestResult resKeyLE where
  trans a b c hab hbc := by
    unfold resKeyLE at hab hbc ⊢
    rcases hab with hab | ⟨hab, hab2⟩
    · rcases hbc with hbc | ⟨hbc, _⟩
      · exact Or.inl (hab.trans hbc)
      · exact Or.inl (hbc ▸ hab)
    · rcases hbc with hbc | ⟨hbc, hbc2⟩
      · exact Or.inl (hab ▸ hbc)
      · exact Or.inr ⟨hab.trans hbc, hab2.trans hbc2⟩

/-- `run_detailed_test` from `src/cfdata.py`, its per-address trial
outcomes injected: collect the non-`None` results of `test_ip` over the
address list, then sort by (loss rate, average latency) ascending.  The
CSV writing and the call to `analyze_results` are external I/O. -/
def run_detailed_test (delay : ℕ) (tests : List (List Char × List (Option ℕ))) :
    List TestResult :=
  List.insertionSort resKeyLE (tests.filterMap fun p => test_ip delay p.1 p.2)

/-! ## Aggregator (`analyze_results`) -/

/-- Python's `int(q)` on a real value: truncation toward zero. -/
def ratTrunc (q : ℚ) : ℤ := if 0 ≤ q then ⌊q⌋ else -⌊-q⌋

/-- The loss-rate band of one result in `analyze_results`:
`(int(res.loss_rate * 100) // 10) * 10` (Python `//` is floor division). -/
def bucketOf (loss_rate : ℚ) : ℤ := (ratTrunc (loss_rate * 100)).fdiv 10 * 10

/-- The count `analyze_results` reports for band `b`: for `b = 100` the
reconstructed `total_ips - len(results)`; otherwise the number of results
whose bucket is `b` (`len(groups.get(b, []))`). -/
def bandCount (results : List TestResult) (total_ips : ℕ) (b : ℤ) : ℤ :=
  if b = 100 then (total_ips : ℤ) - results.length
  else ((results.filter fun r => decide (bucketOf r.loss_rate = b)).length : ℤ)

/-- The bands `range(0, 101, 10)` iterated by `analyze_results`. -/
def all_buckets : List ℤ := [0, 10, 20, 30, 40, 50, 60, 70, 80, 90, 100]

/-- The bands holding measured outcomes (band 100 is reconstructed). -/
def loss_buckets : List ℤ := [0, 10, 20, 30, 40, 50, 60, 70, 80, 90]

/-- The count histogram of `analyze_results` over the eleven bands. -/
def analyze_results (results : List TestResult) (total_ips : ℕ) : List ℤ :=
  all_buckets.map (bandCount results total_ips)

/-- Invariant of the trial-loop state: if no trial has succeeded the count
and sum are 0; once a minimum exists, the sum lies between
`count * min` and `count * max`, and `min ≤ max`. -/
def InvState (st : TrialState) : Prop :=
  (st.min_latency = none → st.success_count = 0 ∧ st.total_latency = 0)
  ∧ ∀ m, st.min_latency = some m →
      1 ≤ st.success_count
      ∧ st.success_count * m ≤ st.total_latency
      ∧ st.total_latency ≤ st.success_count * st.max_latency
      ∧ m ≤ st.max_latency

/-- The concrete input for the C8 witness: two addresses, one trial
each, equal loss rates, different latencies. -/
def c8_tests : List (List Char × List (Option ℕ)) :=
  [("8.8.8.8".toList, [some 5]), ("9.9.9.9".toList, [some 3])]

/-! ## Lemmas about the samplers -/

/-- Setting index 3 of a four-element list replaces the last element. -/
lemma set3_eq_take3_append {α : Type} (l : List α) (x : α) (h : l.length = 4) :
    l.set 3 x = l.take 3 ++ [x] := by
  match l, h with
  | [a, b, c, d], _ => rfl

/-- Closed form for `get_random_ipv4s`: one candidate per eligible block,
in input order, the `p.1`-th eligible block consuming random value
`rng p.1`; the emitted candidate keeps the first three octets and appends
the decimal rendering of the random byte. -/
lemma get_random_ipv4s_eq (rng : ℕ → Fin 256) :
    ∀ (l : List (List Char)) (n : ℕ),
      get_random_ipv4s rng n l
        = ((l.filter eligibleV4).enumFrom n).map fun p =>
            joinSep '.' ((splitOnChar '.' (dropRight 3 p.2)).take 3 ++ [natToStr (rng p.1).val]) := by
  intro l
  induction l with
  | nil => intro n; simp [get_random_ipv4s]
  | cons s rest ih =>
    intro n
    by_cases h24 : endsWith ("/24".toList) s = true
    · by_cases hlen : (splitOnChar '.' (dropRight 3 s)).length = 4
      · have helig : eligibleV4 s = true := by
          simp only [eligibleV4, h24, decide_eq_true hlen, Bool.and_self]
        simp only [get_random_ipv4s, h24, if_true, hlen, List.filter_cons, helig,
          List.enumFrom, List.map_cons, ih (n + 1)]
        rw [set3_eq_take3_append _ _ hlen]
      · have helig : ¬ (eligibleV4 s = true) := by
          simp only [eligibleV4, decide_eq_false hlen, Bool.and_false]
          exact Bool.false_ne_true
        simp only [get_random_ipv4s, h24, if_true, hlen, if_false, List.filter_cons]
        rw [if_neg helig]
        exact ih n
    · have h24f : endsWith ("/24".toList) s = false := by
        rwa [Bool.not_eq_true] at h24
      have helig : ¬ (eligibleV4 s = true) := by
        simp only [eligibleV4, h24f, Bool.false_and]
        exact Bool.false_ne_true
      simp only [get_random_ipv4s, h24f, Bool.false_eq_true, if_false, List.filter_cons]
      rw [if_neg helig]
      exact ih n

/-- Closed form for `get_random_ipv6s`: starting from call counter `5 * n`
with the eligible blocks enumerated from `n`, the `p.1`-th eligible block
consumes random values `rng (5 * p.1 + 0) … rng (5 * p.1 + 4)` and emits
the first three sections followed by their five hex renderings. -/
lemma get_random_ipv6s_eq (rng : ℕ → Fin 65536) :
    ∀ (l : List (List Char)) (n : ℕ),
      get_random_ipv6s rng (5 * n) l
        = ((l.filter eligibleV6).enumFrom n).map fun p =>
            joinSep ':' ((splitOnChar ':' (dropRight 3 p.2)).take 3
              ++ (List.range 5).map fun i => natToHex (rng (5 * p.1 + i)).val) := by
  intro l
  induction l with
  | nil => intro n; simp [get_random_ipv6s]
  | cons s rest ih =>
    intro n
    by_cases h48 : endsWith ("/48".toList) s = true
    · by_cases hlen : (splitOnChar ':' (dropRight 3 s)).length < 3
      · have helig : ¬ (eligibleV6 s = true) := by
          have hd : decide (3 ≤ (splitOnChar ':' (dropRight 3 s)).length) = false :=
            decide_eq_false (by omega)
          simp only [eligibleV6, hd, Bool.and_false]
          exact Bool.false_ne_true
        simp only [get_random_ipv6s, h48, if_true, hlen, List.filter_cons]
        rw [if_neg helig]
        exact ih n
      · have helig : eligibleV6 s = true := by
          have hd : decide (3 ≤ (splitOnChar ':' (dropRight 3 s)).length) = true :=
            decide_eq_true (by omega)
          simp only [eligibleV6, h48, hd, Bool.and_self]
        have h5 : 5 * n + 5 = 5 * (n + 1) := by ring
        simp only [get_random_ipv6s, h48, if_true, hlen, if_false, List.filter_cons, helig,
          List.enumFrom, List.map_cons, h5, ih (n + 1)]
    · have h48f : endsWith ("/48".toList) s = false := by
        rwa [Bool.not_eq_true] at h48
      have helig : ¬ (eligibleV6 s = true) := by
        simp only [eligibleV6, h48f, Bool.false_and]
        exact Bool.false_ne_true
      simp only [get_random_ipv6s, h48f, Bool.false_eq_true, if_false, List.filter_cons]
      rw [if_neg helig]
      exact ih n

/-! ## Lemmas about `test_ip`'s trial loop -/

/-- The trial loop counts and sums exactly the successful latencies. -/
lemma foldl_trialStep_count_sum (delay : ℕ) :
    ∀ (trials : List (Option ℕ)) (st : TrialState),
      (trials.foldl (trialStep delay) st).success_count
          = st.success_count + (successLatencies delay trials).length
      ∧ (trials.foldl (trialStep delay) st).total_latency
          = st.total_latency + (successLatencies delay trials).sum := by
  intro trials
  induction trials with
  | nil => intro st; simp [successLatencies]
  | cons t rest ih =>
    intro st
    match t with
    | none =>
      simpa [successLatencies, List.filterMap_cons] using ih st
    | some l =>
      by_cases hl : delay < l
      · have hdec : decide (l ≤ delay) = false := decide_eq_false (by omega)
        have hstep : trialStep delay st (some l) = st := by
          simp [trialStep, hl]
        simp only [List.foldl_cons, hstep, successLatencies, List.filterMap_cons,
          Option.isSome_some, id, List.filter_cons, hdec, Bool.false_eq_true, if_false]
        exact ih st
      · have hdec : decide (l ≤ delay) = true := decide_eq_true (by omega)
        have hstep : trialStep delay st (some l)
            = { success_count := st.success_count + 1
                total_latency := st.total_latency + l
                min_latency := some (match st.min_latency with
                  | none => l
                  | some m => min m l)
                max_latency := max st.max_latency l } := by
          simp [trialStep, hl]
        simp only [List.foldl_cons, hstep, successLatencies, List.filterMap_cons,
          id, List.filter_cons, hdec, if_true]
        have h2 := ih { success_count := st.success_count + 1
                        total_latency := st.total_latency + l
                        min_latency := some (match st.min_latency with
                          | none => l
                          | some m => min m l)
                        max_latency := max st.max_latency l }
        constructor
        · rw [h2.1]
          simp only [successLatencies, List.length_cons]
          omega
        · rw [h2.2]
          simp only [successLatencies, List.sum_cons]
          omega

lemma invState_init : InvState initState := by
  constructor
  · intro _; exact ⟨rfl, rfl⟩
  · intro m hm; simp [initState] at hm

lemma invState_step (delay : ℕ) (st : TrialState) (t : Option ℕ) (h : InvState st) :
    InvState (trialStep delay st t) := by
  cases t with
  | none => exact h
  | some l =>
    by_cases hl : delay < l
    · simpa [trialStep, hl] using h
    · simp only [trialStep, hl, if_false]
      constructor
      · intro hnone; simp at hnone
      · intro m' hm'
        simp only [Option.some.injEq] at hm'
        cases hmin : st.min_latency with
        | none =>
          obtain ⟨hs0, ht0⟩ := h.1 hmin
          rw [hmin] at hm'
          have hm2 : m' = l := by simpa using hm'.symm
          refine ⟨?_, ?_, ?_, ?_⟩
          · show 1 ≤ st.success_count + 1
            omega
          · show (st.success_count + 1) * m' ≤ st.total_latency + l
            rw [hm2, hs0, ht0]
            omega
          · show st.total_latency + l ≤ (st.success_count + 1) * max st.max_latency l
            rw [hs0, ht0]
            have hmax := le_max_right st.max_latency l
            omega
          · show m' ≤ max st.max_latency l
            rw [hm2]
            exact le_max_right _ _
        | some m =>
          obtain ⟨hs1, hmt, htm, hmm⟩ := h.2 m hmin
          rw [hmin] at hm'
          have hm2 : m' = min m l := by simpa using hm'.symm
          subst hm2
          refine ⟨?_, ?_, ?_, ?_⟩
          · show 1 ≤ st.success_count + 1
            omega
          · show (st.success_count + 1) * min m l ≤ st.total_latency + l
            calc (st.success_count + 1) * min m l
                = st.success_count * min m l + min m l := by ring
              _ ≤ st.total_latency + l := by
                  have h1 : st.success_count * min m l ≤ st.success_count * m :=
                    Nat.mul_le_mul le_rfl (min_le_left m l)
                  exact Nat.add_le_add (h1.trans hmt) (min_le_right m l)
          · show st.total_latency + l ≤ (st.success_count + 1) * max st.max_latency l
            calc st.total_latency + l
                ≤ st.success_count * max st.max_latency l + max st.max_latency l := by
                  have h1 : st.success_count * st.max_latency
                      ≤ st.success_count * max st.max_latency l :=
                    Nat.mul_le_mul le_rfl (le_max_left _ _)
                  exact Nat.add_le_add (htm.trans h1) (le_max_right _ _)
              _ = (st.success_count + 1) * max st.max_latency l := by ring
          · show min m l ≤ max st.max_latency l
            exact (min_le_right m l).trans (le_max_right _ _)

lemma invState_foldl (delay : ℕ) (trials : List (Option ℕ)) :
    InvState (trials.foldl (trialStep delay) initState) := by
  suffices h : ∀ (ts : List (Option ℕ)) (st : TrialState), InvState st →
      InvState (ts.foldl (trialStep delay) st) from
    h trials initState invState_init
  intro ts
  induction ts with
  | nil => intro st hst; exact hst
  | cons t rest ih =>
    intro st hst
    exact ih _ (invState_step delay st t hst)

/-- The number of successful trials is at most the number of trials. -/
lemma successLatencies_length_le (delay : ℕ) (trials : List (Option ℕ)) :
    (successLatencies delay trials).length ≤ trials.length :=
  (List.length_filter_le _ _).trans (List.length_filterMap_le _ _)

/-! ## Lemmas about `analyze_results`'s band arithmetic -/

/-- A loss rate in `[0, 1)` lands in one of the measured bands 0,…,90. -/
lemma bucketOf_mem_loss_buckets (q : ℚ) (h0 : 0 ≤ q) (h1 : q < 1) :
    bucketOf q ∈ loss_buckets := by
  have h100 : (0 : ℚ) ≤ q * 100 := by positivity
  have htr : ratTrunc (q * 100) = ⌊q * 100⌋ := by
    simp [ratTrunc, h100]
  have hlow : (0 : ℤ) ≤ ⌊q * 100⌋ := by
    exact Int.le_floor.mpr (by exact_mod_cast h100)
  have hhigh : ⌊q * 100⌋ < 100 := by
    apply Int.floor_lt.mpr
    push_cast
    calc q * 100 < 1 * 100 := by
          exact mul_lt_mul_of_pos_right h1 (by norm_num)
      _ = 100 := by norm_num
  rw [bucketOf, htr]
  set t := ⌊q * 100⌋ with ht
  clear_value t
  interval_cases t <;> decide

/-- Summing an indicator over a duplicate-free list containing the value
gives 1. -/
lemma sum_indicator_eq_one (v : ℤ) :
    ∀ (bs : List ℤ), bs.Nodup → v ∈ bs →
      (bs.map fun b => if v = b then (1 : ℤ) else 0).sum = 1 := by
  intro bs
  induction bs with
  | nil => intro _ hv; simp at hv
  | cons b rest ih =>
    intro hnd hv
    have hnd2 := List.nodup_cons.mp hnd
    rcases List.mem_cons.mp hv with hvb | hvr
    · subst hvb
      have hzero : (rest.map fun b => if v = b then (1 : ℤ) else 0).sum = 0 := by
        apply List.sum_eq_zero
        intro x hx
        obtain ⟨b', hb', hx'⟩ := List.mem_map.mp hx
        have : v ≠ b' := fun hc => hnd2.1 (hc ▸ hb')
        simp [this] at hx'
        omega
      simp [hzero]
    · have hvb : v ≠ b := fun hc => hnd2.1 (hc ▸ hvr)
      simp only [List.map_cons, List.sum_cons, if_neg hvb, zero_add]
      exact ih hnd2.2 hvr

/-- Summing over the measured bands the number of results falling in each
band counts every result exactly once, provided every result's bucket is
a measured band. -/
lemma sum_band_lengths (results : List TestResult)
    (hmem : ∀ r ∈ results, bucketOf r.loss_rate ∈ loss_buckets) :
    (loss_buckets.map fun b =>
        ((results.filter fun r => decide (bucketOf r.loss_rate = b)).length : ℤ)).sum
      = results.length := by
  induction results with
  | nil => simp
  | cons r rs ih =>
    have hpt : ∀ b : ℤ,
        ((List.filter (fun x => decide (bucketOf x.loss_rate = b)) (r :: rs)).length : ℤ)
          = (if bucketOf r.loss_rate = b then (1 : ℤ) else 0)
            + ((List.filter (fun x => decide (bucketOf x.loss_rate = b)) rs).length : ℤ) := by
      intro b
      by_cases hb : bucketOf r.loss_rate = b
      · simp [List.filter_cons, hb]
        ring
      · simp [List.filter_cons, hb]
    have hmap : (loss_buckets.map fun b =>
          ((List.filter (fun x => decide (bucketOf x.loss_rate = b)) (r :: rs)).length : ℤ))
        = loss_buckets.map fun b =>
            (if bucketOf r.loss_rate = b then (1 : ℤ) else 0)
              + ((List.filter (fun x => decide (bucketOf x.loss_rate = b)) rs).length : ℤ) := by
      apply List.map_congr_left
      intro b _
      exact hpt b
    have hadd : ∀ (bs : List ℤ) (f g : ℤ → ℤ),
        (bs.map fun b => f b + g b).sum = (bs.map f).sum + (bs.map g).sum := by
      intro bs f g
      induction bs with
      | nil => simp
      | cons b rest ih2 => simp [ih2]; ring
    rw [hmap, hadd]
    have hnd : loss_buckets.Nodup := by decide
    have hv : bucketOf r.loss_rate ∈ loss_buckets := hmem r (List.mem_cons_self r rs)
    rw [sum_indicator_eq_one _ _ hnd hv,
      ih fun x hx => hmem x (List.mem_cons_of_mem r hx)]
    simp only [List.length_cons]
    push_cast
    ring

lemma c8_tests_length : 0 + 1 < (run_detailed_test 100 c8_tests).length := by
  simp only [run_detailed_test, List.length_insertionSort]
  norm_num [c8_tests, test_ip, trialStep, initState, List.foldl, List.filterMap_cons]

/-! ## Claim theorems -/

/-- Claim C1: for every list of emitted trial outcomes (whose loss rates,
as `test_ip` guarantees, lie in `[0, 1)`) and every total candidate count
at least the number of outcomes, the eleven band counts of
`analyze_results` — measured bands 0..90 plus the reconstructed band 100 —
sum exactly to the total candidate count. -/
theorem c1_band_counts_partition (results : List TestResult) (total_ips : ℕ)
    (hlen : results.length ≤ total_ips)
    (hloss : ∀ r ∈ results, 0 ≤ r.loss_rate ∧ r.loss_rate < 1) :
    (analyze_results results total_ips).sum = (total_ips : ℤ) := by
  have hmem : ∀ r ∈ results, bucketOf r.loss_rate ∈ loss_buckets := fun r hr =>
    bucketOf_mem_loss_buckets _ (hloss r hr).1 (hloss r hr).2
  have hsplit : all_buckets = loss_buckets ++ [100] := rfl
  have hne : ∀ b ∈ loss_buckets, bandCount results total_ips b
      = ((results.filter fun r => decide (bucketOf r.loss_rate = b)).length : ℤ) := by
    intro b hb
    have hb100 : b ≠ 100 := by
      intro hc
      subst hc
      revert hb
      decide
    simp [bandCount, hb100]
  calc (analyze_results results total_ips).sum
      = (loss_buckets.map (bandCount results total_ips)).sum
          + bandCount results total_ips 100 := by
        simp [analyze_results, hsplit]
    _ = (results.length : ℤ) + ((total_ips : ℤ) - results.length) := by
        rw [List.map_congr_left hne, sum_band_lengths results hmem]
        simp [bandCount]
    _ = (total_ips : ℤ) := by ring

/-- Witness for C1 at a concrete input: one outcome with loss rate 2/10
out of 3 candidates. -/
theorem c1_band_counts_partition_witness :
    ([(⟨"1.1.1.1".toList, 5, 9, 7, 2/10⟩ : TestResult)].length ≤ 3)
    ∧ (analyze_results [⟨"1.1.1.1".toList, 5, 9, 7, 2/10⟩] 3).sum = (3 : ℤ) := by
  constructor
  · decide
  · exact c1_band_counts_partition [⟨"1.1.1.1".toList, 5, 9, 7, 2/10⟩] 3 (by decide)
      (by intro r hr; simp only [List.mem_singleton] at hr; subst hr; norm_num)

/-- Claim C2 fails on the code: a trial whose measured latency is exactly
the threshold (`latency_ms > delay` is false at equality) is counted as a
success, so ten trials at exactly 300 ms against a 300 ms threshold emit a
result with loss rate 0 — the claim would require this address to have no
successes and be dropped. -/
theorem c2_boundary_counterexample :
    test_ip 300 ("1.0.0.1".toList) (List.replicate 10 (some 300))
        = some ⟨"1.0.0.1".toList, 300, 300, 300, 0⟩
    ∧ ¬ ((300 : ℕ) < 300) := by
  constructor
  · norm_num [test_ip, trialStep, initState, List.replicate, List.foldl]
  · decide

/-- Claim C2 amended: a trial contributes to the success count and to the
min/max/sum statistics exactly when its measured latency is at most the
threshold (boundary inclusive); only strictly larger latencies (and
exceptions) are failures. -/
theorem c2_threshold_boundary_amended (delay : ℕ) (st : TrialState) (l : ℕ) :
    (l ≤ delay → trialStep delay st (some l)
        = { success_count := st.success_count + 1
            total_latency := st.total_latency + l
            min_latency := some (match st.min_latency with
              | none => l
              | some m => min m l)
            max_latency := max st.max_latency l })
    ∧ (delay < l → trialStep delay st (some l) = st)
    ∧ trialStep delay st none = st := by
  refine ⟨fun hle => ?_, fun hlt => ?_, rfl⟩
  · have h : ¬ (delay < l) := by omega
    simp [trialStep, h]
  · simp [trialStep, hlt]

/-- Witness for the amended C2: at threshold 300, a 300 ms trial is
counted and a 301 ms trial is ignored. -/
theorem c2_threshold_boundary_amended_witness :
    trialStep 300 initState (some 300) = ⟨1, 300, some 300, 300⟩
    ∧ trialStep 300 initState (some 301) = initState := by
  constructor
  · exact ((c2_threshold_boundary_amended 300 initState 300).1 (by decide)).trans (by decide)
  · exact (c2_threshold_boundary_amended 300 initState 301).2.1 (by decide)

/-- Claim C3: with 10 trials, an address with no successful trial is
dropped (`test_ip` returns `none`); with `s > 0` successes the emitted
outcome has average latency `⌊sum of successful latencies / s⌋` and loss
rate `(10 − s)/10`, so 10/10 successes give loss rate exactly 0. -/
theorem c3_average_and_loss_rate (delay : ℕ) (ip : List Char)
    (trials : List (Option ℕ)) (h10 : trials.length = 10) :
    ((successLatencies delay trials).length = 0 → test_ip delay ip trials = none)
    ∧ (0 < (successLatencies delay trials).length →
        ∃ r, test_ip delay ip trials = some r
          ∧ r.avg_latency
              = (successLatencies delay trials).sum / (successLatencies delay trials).length
          ∧ r.loss_rate = ((10 : ℚ) - (successLatencies delay trials).length) / 10)
    ∧ ((successLatencies delay trials).length = 10 →
        ∃ r, test_ip delay ip trials = some r ∧ r.loss_rate = 0) := by
  have hcs := foldl_trialStep_count_sum delay trials initState
  have hs : (trials.foldl (trialStep delay) initState).success_count
      = (successLatencies delay trials).length := by
    rw [hcs.1]; simp [initState]
  have ht : (trials.foldl (trialStep delay) initState).total_latency
      = (successLatencies delay trials).sum := by
    rw [hcs.2]; simp [initState]
  have hmain : 0 < (successLatencies delay trials).length →
      ∃ r, test_ip delay ip trials = some r
        ∧ r.avg_latency
            = (successLatencies delay trials).sum / (successLatencies delay trials).length
        ∧ r.loss_rate = ((10 : ℚ) - (successLatencies delay trials).length) / 10 := by
    intro hpos
    refine ⟨{ ip := ip
              min_latency := (trials.foldl (trialStep delay) initState).min_latency.getD 0
              max_latency := (trials.foldl (trialStep delay) initState).max_latency
              avg_latency := (trials.foldl (trialStep delay) initState).total_latency
                  / (trials.foldl (trialStep delay) initState).success_count
              loss_rate := ((10 : ℚ)
                  - (trials.foldl (trialStep delay) initState).success_count) / 10 },
      ?_, ?_, ?_⟩
    · simp only [test_ip]
      rw [if_pos (by rw [hs]; exact hpos)]
    · show (trials.foldl (trialStep delay) initState).total_latency
          / (trials.foldl (trialStep delay) initState).success_count
        = (successLatencies delay trials).sum / (successLatencies delay trials).length
      rw [hs, ht]
    · show ((10 : ℚ) - (trials.foldl (trialStep delay) initState).success_count) / 10
        = ((10 : ℚ) - (successLatencies delay trials).length) / 10
      rw [hs]
  refine ⟨fun h0 => ?_, hmain, fun hall => ?_⟩
  · simp only [test_ip]
    rw [if_neg (by rw [hs]; omega)]
  · obtain ⟨r, hr, _, hloss⟩ := hmain (by omega)
    refine ⟨r, hr, ?_⟩
    rw [hloss, hall]
    norm_num

/-- Witness for C3 at a concrete input: ten successful 50 ms trials under
a 100 ms threshold emit an outcome with loss rate 0. -/
theorem c3_average_and_loss_rate_witness :
    ∃ r, test_ip 100 ("1.0.0.1".toList) (List.replicate 10 (some 50)) = some r
      ∧ r.loss_rate = 0 :=
  (c3_average_and_loss_rate 100 ("1.0.0.1".toList) (List.replicate 10 (some 50))
    (by decide)).2.2 (by decide)

/-- Claim C4: `get_random_ipv4s` emits, in input order, exactly one
candidate per block ending in `/24` whose base has exactly four octets —
keeping the first three octets and appending the decimal rendering of the
random byte (a value in `[0, 255]` by the type of `rng`) — and nothing for
any other block, so the output is never longer than the input. -/
theorem c4_ipv4_sampler (rng : ℕ → Fin 256) (l : List (List Char)) :
    get_random_ipv4s rng 0 l
      = ((l.filter eligibleV4).enum.map fun p =>
          joinSep '.' ((splitOnChar '.' (dropRight 3 p.2)).take 3 ++ [natToStr (rng p.1).val]))
    ∧ (get_random_ipv4s rng 0 l).length ≤ l.length := by
  have h := get_random_ipv4s_eq rng l 0
  constructor
  · exact h
  · rw [h, List.length_map, List.enumFrom_length]
    exact List.length_filter_le _ _

/-- Claim C5: `get_random_ipv6s` maps the `i`-th eligible `/48` block
(base splitting into at least three sections) to its first three groups
followed by five lowercase-hex groups drawn from `[0, 65535]` (values
`rng (5i) … rng (5i+4)`), a full 8-group address, for every random
source. -/
theorem c5_ipv6_sampler (rng : ℕ → Fin 65536) (l : List (List Char)) :
    get_random_ipv6s rng 0 l
      = ((l.filter eligibleV6).enum.map fun p =>
          joinSep ':' ((splitOnChar ':' (dropRight 3 p.2)).take 3
            ++ (List.range 5).map fun i => natToHex (rng (5 * p.1 + i)).val))
    ∧ ∀ s ∈ l.filter eligibleV6, ∀ k : ℕ,
        ((splitOnChar ':' (dropRight 3 s)).take 3
          ++ (List.range 5).map fun i => natToHex (rng (k + i)).val).length = 8 := by
  constructor
  · have h := get_random_ipv6s_eq rng l 0
    rw [Nat.mul_zero] at h
    exact h
  · intro s hs k
    have helig : eligibleV6 s = true := (List.mem_filter.mp hs).2
    have h3 : 3 ≤ (splitOnChar ':' (dropRight 3 s)).length := by
      simp only [eligibleV6, Bool.and_eq_true, decide_eq_true_eq] at helig
      exact helig.2
    simp only [List.length_append, List.length_take, List.length_map, List.length_range]
    omega

/-- Witness for C5 at a concrete input: sampling `2400:cb00:2048::/48`
with a constant random source. -/
theorem c5_ipv6_sampler_witness :
    get_random_ipv6s (fun _ => (255 : Fin 65536)) 0 ["2400:cb00:2048::/48".toList]
      = ["2400:cb00:2048:ff:ff:ff:ff:ff".toList]
    ∧ ((splitOnChar ':' (dropRight 3 ("2400:cb00:2048::/48".toList))).take 3
        ++ (List.range 5).map fun i =>
            natToHex ((fun _ => (255 : Fin 65536)) (0 + i)).val).length = 8 := by
  constructor
  · exact (c5_ipv6_sampler (fun _ => (255 : Fin 65536)) ["2400:cb00:2048::/48".toList]).1.trans
      (by decide)
  · exact (c5_ipv6_sampler (fun _ => (255 : Fin 65536)) ["2400:cb00:2048::/48".toList]).2
      ("2400:cb00:2048::/48".toList) (by decide) 0

/-- Claim C6: `scan_ip` yields no result for a candidate whose connect or
send/recv phase fails, whose response lacks the `uag=Mozilla/5.0` echo, or
whose response lacks a `colo=CODE` token; being a total function of the
behaviour, no exception propagates to the caller. -/
theorem c6_discards_unrecognized (location_map : List Char → Option Location)
    (ip : List Char) :
    scan_ip location_map ip .connectFail = none
    ∧ (∀ lat, scan_ip location_map ip (.exchangeFail lat) = none)
    ∧ (∀ lat text, containsSub uagEcho text = false →
        scan_ip location_map ip (.response lat text) = none)
    ∧ (∀ lat text, findColo text = none →
        scan_ip location_map ip (.response lat text) = none) := by
  refine ⟨rfl, fun lat => rfl, fun lat text hecho => ?_, fun lat text hcolo => ?_⟩
  · simp [scan_ip, hecho]
  · by_cases hecho : containsSub uagEcho text = true
    · simp [scan_ip, hecho, hcolo]
    · simp [scan_ip, hecho]

/-- Witness for C6 at concrete inputs: a failed connect, a response
without the echo, and an echoed response without a `colo=` token all yield
no result. -/
theorem c6_discards_unrecognized_witness :
    scan_ip (fun _ => none) ("1.2.3.4".toList) .connectFail = none
    ∧ scan_ip (fun _ => none) ("1.2.3.4".toList) (.response 7 ("hello".toList)) = none
    ∧ scan_ip (fun _ => none) ("1.2.3.4".toList) (.response 7 uagEcho) = none := by
  have h := c6_discards_unrecognized (fun _ => none) ("1.2.3.4".toList)
  exact ⟨h.1, h.2.2.1 7 ("hello".toList) (by decide), h.2.2.2 7 uagEcho (by decide)⟩

/-- Claim C7: when the response carries the echo and a `colo=CODE` token,
`scan_ip` emits a result whose region and city come from the location
directory when the code is present, and are empty strings — rather than
the candidate being discarded — when the code is absent. -/
theorem c7_unknown_code_kept (location_map : List Char → Option Location)
    (ip : List Char) (lat : ℕ) (text code : List Char)
    (hecho : containsSub uagEcho text = true)
    (hcolo : findColo text = some code) :
    (∀ loc, location_map code = some loc →
        scan_ip location_map ip (.response lat text)
          = some ⟨ip, code, loc.region, loc.city, lat⟩)
    ∧ (location_map code = none →
        scan_ip location_map ip (.response lat text) = some ⟨ip, code, [], [], lat⟩) := by
  constructor
  · intro loc hloc
    simp [scan_ip, hecho, hcolo, hloc]
  · intro hnone
    simp [scan_ip, hecho, hcolo, hnone]

/-- Witness for C7 at a concrete response carrying `colo=SJC`, once with a
directory containing SJC and once with an empty directory. -/
theorem c7_unknown_code_kept_witness :
    scan_ip
        (fun c => if c = "SJC".toList
          then some ⟨"SJC".toList, 0, 0, "US".toList, "California".toList, "San Jose".toList⟩
          else none)
        ("1.2.3.4".toList)
        (.response 12 ("uag=Mozilla/5.0\ncolo=SJC\n".toList))
      = some ⟨"1.2.3.4".toList, "SJC".toList, "California".toList, "San Jose".toList, 12⟩
    ∧ scan_ip (fun _ => none) ("1.2.3.4".toList)
        (.response 12 ("uag=Mozilla/5.0\ncolo=SJC\n".toList))
      = some ⟨"1.2.3.4".toList, "SJC".toList, [], [], 12⟩ := by
  constructor
  · exact (c7_unknown_code_kept
      (fun c => if c = "SJC".toList
        then some ⟨"SJC".toList, 0, 0, "US".toList, "California".toList, "San Jose".toList⟩
        else none)
      ("1.2.3.4".toList) 12 ("uag=Mozilla/5.0\ncolo=SJC\n".toList) ("SJC".toList)
      (by decide) (by decide)).1
      ⟨"SJC".toList, 0, 0, "US".toList, "California".toList, "San Jose".toList⟩ (by decide)
  · exact (c7_unknown_code_kept (fun _ => none)
      ("1.2.3.4".toList) 12 ("uag=Mozilla/5.0\ncolo=SJC\n".toList) ("SJC".toList)
      (by decide) (by decide)).2 rfl

/-- Claim C8: the result list of `run_detailed_test` is sorted by loss
rate ascending with ties broken by average latency: each adjacent pair is
strictly increasing in loss rate, or equal in loss rate with
non-decreasing average latency. -/
theorem c8_sort_order (delay : ℕ) (tests : List (List Char × List (Option ℕ)))
    (i : ℕ) (h : i + 1 < (run_detailed_test delay tests).length) :
    ((run_detailed_test delay tests).get ⟨i, Nat.lt_of_succ_lt h⟩).loss_rate
        < ((run_detailed_test delay tests).get ⟨i + 1, h⟩).loss_rate
    ∨ (((run_detailed_test delay tests).get ⟨i, Nat.lt_of_succ_lt h⟩).loss_rate
          = ((run_detailed_test delay tests).get ⟨i + 1, h⟩).loss_rate
        ∧ ((run_detailed_test delay tests).get ⟨i, Nat.lt_of_succ_lt h⟩).avg_latency
            ≤ ((run_detailed_test delay tests).get ⟨i + 1, h⟩).avg_latency) := by
  have hs : (run_detailed_test delay tests).Sorted resKeyLE :=
    List.sorted_insertionSort resKeyLE _
  exact List.pairwise_iff_get.mp hs ⟨i, Nat.lt_of_succ_lt h⟩ ⟨i + 1, h⟩
    (Fin.mk_lt_mk.mpr (Nat.lt_succ_self i))

/-- Witness for C8 at a concrete input with two addresses of equal loss
rate and different average latencies. -/
theorem c8_sort_order_witness :
    0 + 1 < (run_detailed_test 100 c8_tests).length
    ∧ (((run_detailed_test 100 c8_tests).get
            ⟨0, Nat.lt_of_succ_lt c8_tests_length⟩).loss_rate
          < ((run_detailed_test 100 c8_tests).get ⟨0 + 1, c8_tests_length⟩).loss_rate
        ∨ (((run_detailed_test 100 c8_tests).get
              ⟨0, Nat.lt_of_succ_lt c8_tests_length⟩).loss_rate
            = ((run_detailed_test 100 c8_tests).get ⟨0 + 1, c8_tests_length⟩).loss_rate
          ∧ ((run_detailed_test 100 c8_tests).get
              ⟨0, Nat.lt_of_succ_lt c8_tests_length⟩).avg_latency
            ≤ ((run_detailed_test 100 c8_tests).get
                ⟨0 + 1, c8_tests_length⟩).avg_latency)) :=
  ⟨c8_tests_length, c8_sort_order 100 c8_tests 0 c8_tests_length⟩

/-- Claim C9: three candidates, two measured outcomes with loss rates 0
and 0.2, give count 1 in band 0, count 1 in band 20, count 1 in the
reconstructed band 100, and count 0 in every other band. -/
theorem c9_concrete_histogram :
    analyze_results
        [⟨"1.1.1.1".toList, 5, 9, 7, 0⟩, ⟨"2.2.2.2".toList, 5, 9, 7, 2/10⟩] 3
      = [1, 0, 1, 0, 0, 0, 0, 0, 0, 0, 1] := by
  norm_num [analyze_results, all_buckets, bandCount, bucketOf, ratTrunc, List.filter]
  decide

/-- Claim C10: every emitted `TestResult` has `min ≤ avg ≤ max`, a loss
rate that is a multiple of 1/10 strictly below 1 (and nonnegative), and
therefore never falls in `analyze_results`'s 100% band. -/
theorem c10_result_invariants (delay : ℕ) (ip : List Char)
    (trials : List (Option ℕ)) (r : TestResult) (h10 : trials.length = 10)
    (hr : test_ip delay ip trials = some r) :
    r.min_latency ≤ r.avg_latency ∧ r.avg_latency ≤ r.max_latency
    ∧ (∃ k : ℕ, k ≤ 9 ∧ r.loss_rate = (k : ℚ) / 10)
    ∧ 0 ≤ r.loss_rate ∧ r.loss_rate < 1
    ∧ bucketOf r.loss_rate ≠ 100 := by
  have hinv := invState_foldl delay trials
  have hcs := foldl_trialStep_count_sum delay trials initState
  simp only [test_ip] at hr
  split at hr
  case isFalse => exact absurd hr (by simp)
  case isTrue hpos =>
    obtain rfl := (Option.some.inj hr).symm
    set st := trials.foldl (trialStep delay) initState with hstdef
    cases hmin : st.min_latency with
    | none => exact absurd (hinv.1 hmin).1 (by omega)
    | some m =>
      obtain ⟨hs1, hmt, htm, hmm⟩ := hinv.2 m hmin
      have hs10 : st.success_count ≤ 10 := by
        have h1 : (successLatencies delay trials).length ≤ 10 := by
          rw [← h10]
          exact successLatencies_length_le delay trials
        have h2 := hcs.1
        simp only [initState] at h2
        omega
      refine ⟨?_, ?_, ?_, ?_, ?_, ?_⟩
      · show (some m).getD 0 ≤ st.total_latency / st.success_count
        simp only [Option.getD_some]
        rw [Nat.le_div_iff_mul_le hpos, Nat.mul_comm]
        exact hmt
      · show st.total_latency / st.success_count ≤ st.max_latency
        calc st.total_latency / st.success_count
            ≤ st.success_count * st.max_latency / st.success_count :=
              Nat.div_le_div_right htm
          _ = st.max_latency := Nat.mul_div_cancel_left _ hpos
      · refine ⟨10 - st.success_count, by omega, ?_⟩
        show ((10 : ℚ) - st.success_count) / 10 = ((10 - st.success_count : ℕ) : ℚ) / 10
        rw [Nat.cast_sub hs10]
        norm_num
      · show 0 ≤ ((10 : ℚ) - st.success_count) / 10
        have hq : (st.success_count : ℚ) ≤ 10 := by exact_mod_cast hs10
        exact div_nonneg (by linarith) (by norm_num)
      · show ((10 : ℚ) - st.success_count) / 10 < 1
        rw [div_lt_one (by norm_num : (0 : ℚ) < 10)]
        have : (1 : ℚ) ≤ st.success_count := by exact_mod_cast hs1
        linarith
      · show bucketOf (((10 : ℚ) - st.success_count) / 10) ≠ 100
        have h0 : (0 : ℚ) ≤ ((10 : ℚ) - st.success_count) / 10 := by
          have hq : (st.success_count : ℚ) ≤ 10 := by exact_mod_cast hs10
          exact div_nonneg (by linarith) (by norm_num)
        have h1 : ((10 : ℚ) - st.success_count) / 10 < 1 := by
          rw [div_lt_one (by norm_num : (0 : ℚ) < 10)]
          have : (1 : ℚ) ≤ st.success_count := by exact_mod_cast hs1
          linarith
        have hb := bucketOf_mem_loss_buckets _ h0 h1
        have hne : ∀ b ∈ loss_buckets, b ≠ 100 := by decide
        exact hne _ hb

/-- Witness for C10 at a concrete input: nine successful 50 ms trials and
one exception under a 100 ms threshold. -/
theorem c10_result_invariants_witness :
    (50 : ℕ) ≤ 50 ∧ (50 : ℕ) ≤ 50
    ∧ (∃ k : ℕ, k ≤ 9 ∧ ((1 : ℚ) / 10) = (k : ℚ) / 10)
    ∧ (0 : ℚ) ≤ 1 / 10 ∧ (1 : ℚ) / 10 < 1
    ∧ bucketOf ((1 : ℚ) / 10) ≠ 100 := by
  have hr : test_ip 100 ("1.0.0.1".toList)
      (List.replicate 9 (some 50) ++ [none])
      = some ⟨"1.0.0.1".toList, 50, 50, 50, 1/10⟩ := by
    norm_num [test_ip, trialStep, initState, List.replicate, List.foldl]
  exact c10_result_invariants 100 ("1.0.0.1".toList)
    (List.replicate 9 (some 50) ++ [none]) ⟨"1.0.0.1".toList, 50, 50, 50, 1/10⟩
    (by decide) hr

end Cfdata
